import Mathlib

/-!
Verification of the score engine, severity
classifier, simulation mode and attack-animation sequencer, shallowly
embedded from the JavaScript source.  Numeric values are modelled as
rationals; JS `undefined` fields are modelled with `Option`.
-/

namespace ChaosMeter

/-- Severity buckets returned by the classifier. -/
inductive Severity
  | low
  | medium
  | high
  | critical
  deriving DecidableEq, Repr

/-- Source `getSeverity(val, max, rev)`: normalized ratio with
optional reversal, then fixed thresholds. -/
def getSeverity (val mx : ℚ) (rev : Bool) : Severity :=
  let n0 := val / mx
  let n := if rev then 1 - n0 else n0
  if n ≥ 3/4 then .critical
  else if n ≥ 1/2 then .high
  else if n ≥ 1/4 then .medium
  else .low

/-- One chaos factor, with only the fields the modelled routines read.
`value` and `weight` may be JS-`undefined`, hence `Option`. -/
structure Factor where
  weight : Option ℚ
  value : Option ℚ
  max : ℚ
  reverse : Bool
  deriving DecidableEq, Repr

/-- JS `f.weight || 1`: a missing or zero weight counts as 1. -/
def effWeight (f : Factor) : ℚ :=
  match f.weight with
  | none => 1
  | some w => if w = 0 then 1 else w

/-- The normalized ratio `n = value/max`, reversed when the flag is set. -/
def normalized (f : Factor) (v : ℚ) : ℚ :=
  let n := v / f.max
  if f.reverse then 1 - n else n

/-- The accumulation loop of `updateScore`: running pair `(t, w)` over the
factors, skipping those with an undefined value. -/
def scoreFold (fs : List Factor) : ℚ × ℚ :=
  fs.foldl
    (fun acc f =>
      match f.value with
      | none => acc
      | some v => (acc.1 + normalized f v * effWeight f, acc.2 + effWeight f))
    (0, 0)

/-- The locally computed aggregate of `updateScore`:
`w > 0 ? (t / w) * 100 : 0`. -/
def localScore (fs : List Factor) : ℚ :=
  let p := scoreFold fs
  if 0 < p.2 then p.1 / p.2 * 100 else 0

/-- Displayed value of `updateScore`: a truthy (nonzero) `liveData.chaosIndex`
short-circuits the local computation. -/
def updateScore (chaosIndex : Option ℚ) (fs : List Factor) : ℚ :=
  match chaosIndex with
  | some c => if c = 0 then localScore fs else c
  | none => localScore fs

/-- Sum of the weighted normalized terms over factors with a defined value. -/
def sumNW (fs : List Factor) : ℚ :=
  (fs.filterMap (fun f => f.value.map (fun v => normalized f v * effWeight f))).sum

/-- Sum of the effective weights over factors with a defined value. -/
def sumW (fs : List Factor) : ℚ :=
  (fs.filterMap (fun f => f.value.map (fun _ => effWeight f))).sum

end ChaosMeter

namespace ChaosMeter

theorem scoreFold_eq (fs : List Factor) :
    ∀ a b : ℚ,
      fs.foldl
        (fun acc f =>
          match f.value with
          | none => acc
          | some v => (acc.1 + normalized f v * effWeight f, acc.2 + effWeight f))
        (a, b) = (a + sumNW fs, b + sumW fs) := by
  induction fs with
  | nil => intro a b; simp [sumNW, sumW]
  | cons f rest ih =>
    intro a b
    cases hv : f.value with
    | none =>
      simp only [List.foldl_cons, hv, sumNW, sumW, List.filterMap_cons, hv,
        Option.map_none]
      exact ih a b
    | some v =>
      simp only [List.foldl_cons, hv]
      rw [ih]
      simp [sumNW, sumW, List.filterMap_cons, hv]
      constructor <;> ring

theorem scoreFold_spec (fs : List Factor) :
    scoreFold fs = (sumNW fs, sumW fs) := by
  have h := scoreFold_eq fs 0 0
  simpa [scoreFold] using h

theorem sumW_nonneg (fs : List Factor) (hw : ∀ f ∈ fs, 0 ≤ effWeight f) :
    0 ≤ sumW fs := by
  apply List.sum_nonneg
  intro x hx
  simp only [sumW, List.mem_filterMap] at hx
  obtain ⟨f, hf, hmap⟩ := hx
  cases hv : f.value with
  | none => simp [hv] at hmap
  | some v =>
    simp [hv] at hmap
    exact hmap ▸ hw f hf

/-- Claim C1: the locally computed aggregate is the weighted mean
`100 · Σ(n·weight) / Σ(weight)` over the factors with a defined value,
with a missing or zero weight counted as 1, and exactly 0 when the weight
sum is zero; on the two-factor scenario from the spec it is exactly 80. -/
theorem localScore_weighted_mean (fs : List Factor)
    (hw : ∀ f ∈ fs, 0 ≤ effWeight f) :
    (localScore fs = if sumW fs = 0 then 0 else 100 * sumNW fs / sumW fs) ∧
    localScore
      [ { weight := some 20, value := some 80, max := 100, reverse := false },
        { weight := some 10, value := some 10, max := 50, reverse := true } ] = 80 := by
  constructor
  · have hnn : 0 ≤ sumW fs := sumW_nonneg fs hw
    by_cases h0 : sumW fs = 0
    · simp [localScore, scoreFold_spec, h0]
    · have hpos : 0 < sumW fs := lt_of_le_of_ne hnn (Ne.symm h0)
      simp only [localScore, scoreFold_spec]
      rw [if_pos hpos, if_neg h0]
      ring
  · norm_num [localScore, scoreFold, normalized, effWeight]

/-- Witness for C1 at the two factors of the spec scenario. -/
theorem localScore_weighted_mean_witness :
    (∀ f ∈ ([ { weight := some 20, value := some 80, max := 100, reverse := false },
               { weight := some 10, value := some 10, max := 50, reverse := true } ] :
            List Factor), 0 ≤ effWeight f) ∧
    ((localScore
        [ { weight := some 20, value := some 80, max := 100, reverse := false },
          { weight := some 10, value := some 10, max := 50, reverse := true } ] =
      if sumW
            [ { weight := some 20, value := some 80, max := 100, reverse := false },
              { weight := some 10, value := some 10, max := 50, reverse := true } ] = 0
        then 0
        else 100 * sumNW
            [ { weight := some 20, value := some 80, max := 100, reverse := false },
              { weight := some 10, value := some 10, max := 50, reverse := true } ] /
          sumW
            [ { weight := some 20, value := some 80, max := 100, reverse := false },
              { weight := some 10, value := some 10, max := 50, reverse := true } ]) ∧
      localScore
        [ { weight := some 20, value := some 80, max := 100, reverse := false },
          { weight := some 10, value := some 10, max := 50, reverse := true } ] = 80) :=
  ⟨by intro f hf; fin_cases hf <;> norm_num [effWeight],
   localScore_weighted_mean _ (by intro f hf; fin_cases hf <;> norm_num [effWeight])⟩

/-- Counterexample to C2 as stated: a snapshot that supplies the explicit
aggregate 0 is ignored (JS truthiness), the local recomputation 80 is
displayed instead of the supplied 0. -/
theorem updateScore_zero_index_ignored :
    updateScore (some 0)
        [ { weight := some 20, value := some 80, max := 100, reverse := false } ] = 80 ∧
    (80 : ℚ) ≠ 0 := by
  constructor
  · norm_num [updateScore, localScore, scoreFold, normalized, effWeight]
  · norm_num

/-- Claim C2 (amended): a snapshot that supplies a nonzero precomputed
aggregate displays exactly that value regardless of the local factors;
in particular a supplied 42.7 displays exactly 42.7. -/
theorem updateScore_prefers_nonzero_index (fs : List Factor) (c : ℚ)
    (hc : c ≠ 0) :
    updateScore (some c) fs = c ∧
    updateScore (some (427/10)) fs = 427/10 := by
  constructor
  · simp [updateScore, hc]
  · norm_num [updateScore]

/-- Claim C4: the classifier buckets are exactly the four threshold ranges
of the normalized (possibly reversed) ratio. -/
theorem getSeverity_thresholds (val mx n : ℚ) (rev : Bool)
    (hmx : 0 < mx)
    (hn : n = if rev then 1 - val / mx else val / mx) :
    (getSeverity val mx rev = Severity.critical ↔ 3/4 ≤ n) ∧
    (getSeverity val mx rev = Severity.high ↔ 1/2 ≤ n ∧ n < 3/4) ∧
    (getSeverity val mx rev = Severity.medium ↔ 1/4 ≤ n ∧ n < 1/2) ∧
    (getSeverity val mx rev = Severity.low ↔ n < 1/4) := by
  subst hn
  simp only [getSeverity]
  split_ifs with h1 h2 h3 <;>
    refine ⟨?_, ?_, ?_, ?_⟩ <;> simp_all <;> (try intro h) <;> linarith

/-- Witness for C4 at value 80, max 100, not reversed, ratio 4/5. -/
theorem getSeverity_thresholds_witness :
    (0 : ℚ) < 100 ∧
    ((4/5 : ℚ) = if false then 1 - 80 / 100 else 80 / 100) ∧
    ((getSeverity 80 100 false = Severity.critical ↔ 3/4 ≤ (4/5 : ℚ)) ∧
      (getSeverity 80 100 false = Severity.high ↔ 1/2 ≤ (4/5 : ℚ) ∧ (4/5 : ℚ) < 3/4) ∧
      (getSeverity 80 100 false = Severity.medium ↔ 1/4 ≤ (4/5 : ℚ) ∧ (4/5 : ℚ) < 1/2) ∧
      (getSeverity 80 100 false = Severity.low ↔ (4/5 : ℚ) < 1/4)) :=
  ⟨by norm_num, by norm_num,
   getSeverity_thresholds 80 100 (4/5) false (by norm_num) (by norm_num)⟩

/-- One application of the fallback perturbation of `manipulateData`:
`Math.max(0, Math.min(f.max, f.value + delta))`. -/
def perturbOnce (mx v d : ℚ) : ℚ :=
  max 0 (min mx (v + d))

/-- Successive applications of the fallback perturbation with the given
sequence of random deltas. -/
def perturbSeq (mx v : ℚ) (ds : List ℚ) : ℚ :=
  ds.foldl (perturbOnce mx) v

/-- Claim C5: starting from a value in `[0, max]`, any finite sequence of
perturbations with deltas of magnitude at most 1% of max leaves the value
in `[0, max]`. -/
theorem perturbSeq_stays_in_range (mx v : ℚ) (ds : List ℚ)
    (h0 : 0 ≤ v) (h1 : v ≤ mx)
    (hd : ∀ d ∈ ds, |d| ≤ mx / 100) :
    0 ≤ perturbSeq mx v ds ∧ perturbSeq mx v ds ≤ mx := by
  induction ds generalizing v with
  | nil => exact ⟨h0, h1⟩
  | cons d rest ih =>
    have hmx : 0 ≤ mx := le_trans h0 h1
    have step0 : 0 ≤ perturbOnce mx v d := le_max_left _ _
    have step1 : perturbOnce mx v d ≤ mx :=
      max_le hmx (min_le_left _ _)
    simp only [perturbSeq, List.foldl_cons]
    exact ih (perturbOnce mx v d) step0 step1
      (fun x hx => hd x (List.mem_cons_of_mem d hx))

/-- Witness for C5: value 50 in `[0, 100]`, deltas 1 and -1/2. -/
theorem perturbSeq_stays_in_range_witness :
    (0 : ℚ) ≤ 50 ∧ (50 : ℚ) ≤ 100 ∧
    (∀ d ∈ ([1, -1/2] : List ℚ), |d| ≤ (100 : ℚ) / 100) ∧
    (0 ≤ perturbSeq 100 50 [1, -1/2] ∧ perturbSeq 100 50 [1, -1/2] ≤ 100) :=
  ⟨by norm_num, by norm_num,
   by intro d hd; fin_cases hd <;> norm_num [abs_le],
   perturbSeq_stays_in_range 100 50 [1, -1/2] (by norm_num) (by norm_num)
     (by intro d hd; fin_cases hd <;> norm_num [abs_le])⟩

/-- A normalized map coordinate (percentages). -/
structure Coord where
  x : ℚ
  y : ℚ
  deriving DecidableEq, Repr

/-- The static country-code to coordinate table of the source. -/
def countryCoords : List (String × Coord) :=
  [ ("CN", ⟨78, 35⟩), ("RU", ⟨65, 25⟩), ("US", ⟨20, 38⟩),
    ("KP", ⟨81, 34⟩), ("IR", ⟨60, 40⟩), ("BR", ⟨30, 62⟩),
    ("IN", ⟨70, 45⟩), ("VN", ⟨77, 48⟩), ("TR", ⟨55, 36⟩),
    ("UA", ⟨55, 28⟩), ("ID", ⟨80, 58⟩), ("PK", ⟨67, 42⟩),
    ("NG", ⟨48, 52⟩), ("RO", ⟨53, 32⟩), ("PH", ⟨82, 50⟩),
    ("TH", ⟨75, 48⟩), ("MY", ⟨76, 54⟩), ("MX", ⟨15, 45⟩),
    ("AR", ⟨28, 75⟩), ("EG", ⟨54, 43⟩),
    ("GB", ⟨47, 28⟩), ("DE", ⟨50, 28⟩), ("FR", ⟨48, 32⟩),
    ("JP", ⟨85, 35⟩), ("AU", ⟨88, 72⟩), ("CA", ⟨18, 30⟩),
    ("KR", ⟨82, 37⟩), ("NL", ⟨49, 27⟩), ("SG", ⟨77, 55⟩),
    ("CH", ⟨49, 30⟩), ("IT", ⟨51, 33⟩), ("ES", ⟨45, 35⟩),
    ("SE", ⟨52, 22⟩), ("BE", ⟨48, 28⟩), ("IL", ⟨57, 40⟩),
    ("AE", ⟨62, 44⟩), ("TW", ⟨82, 44⟩), ("PL", ⟨52, 28⟩) ]

/-- Lookup `countryCoords[code]`: object property lookup, `none` for an
unmapped country code. -/
def lookupCoord (code : String) : Option Coord :=
  (countryCoords.find? (fun e => e.1 == code)).map Prod.snd

/-- One entry of `liveData.attacks`. -/
structure Attack where
  fromCode : String
  toCode : String
  type : String
  deriving DecidableEq, Repr

/-- Source `getAttackColor(type)`, with its default color. -/
def getAttackColor (t : String) : String :=
  if t == "DDoS" then "#ff6b6b"
  else if t == "Ransomware" then "#ee5a5a"
  else if t == "Phishing" then "#ffa94d"
  else if t == "Botnet" then "#cc5de8"
  else if t == "Exploit" then "#74c0fc"
  else if t == "Brute Force" then "#69db7c"
  else if t == "SQLi" then "#ff8787"
  else "#ff6b6b"

/-- The visual animation spawned for an attack whose endpoints both
resolve: the path endpoints and the stroke color. -/
structure AttackAnim where
  fromCoord : Coord
  toCoord : Coord
  color : String
  deriving DecidableEq, Repr

/-- One tick of `animateAttack`: select the event at the cyclic index,
advance the index, then drop the event unless both country codes resolve.
Returns the new `attackIndex` and the spawned animation, if any. -/
def animateAttackStep (attacks : List Attack) (idx : ℕ) :
    ℕ × Option AttackAnim :=
  match attacks[idx % attacks.length]? with
  | none => (idx, none)
  | some attack =>
    (idx + 1,
      match lookupCoord attack.fromCode, lookupCoord attack.toCode with
      | some fc, some tc => some ⟨fc, tc, getAttackColor attack.type⟩
      | _, _ => none)

/-- The per-frame outputs of the `animate` closure during the Drawing
state: dash offset, stroke opacity, lead particle arclength, and the
arclengths of the trailing particles. -/
structure FrameOut where
  dashOffset : ℚ
  strokeOpacity : ℚ
  leadPos : ℚ
  trailPos : List ℚ
  deriving Repr

/-- Source constant `trailCount`. -/
def trailCount : ℕ := 5

/-- One frame of the Drawing state: progress clamped to 1, cubic
ease-in-out, then the dash offset, opacity, lead particle position and
trail positions exactly as in the source. -/
def animateFrame (pathLength elapsed duration : ℚ) : FrameOut :=
  let progress := min (elapsed / duration) 1
  let eased :=
    if progress < 1/2 then 4 * progress * progress * progress
    else 1 - (-2 * progress + 2) ^ 3 / 2
  { dashOffset := pathLength * (1 - eased)
    strokeOpacity := min (eased * 2) (7/10)
    leadPos := pathLength * eased
    trailPos := (List.range trailCount).map
      (fun (i : ℕ) => pathLength * max 0 (eased - ((i : ℚ) + 1) * (3/100))) }

/-- Claim C6: on a Drawing frame with traversal fraction
`e = eased(t)` (`4t³` for `t < 1/2`, else `1 - (-2t+2)³/2`, with `t` the
clamped progress), the dash offset is `pathLength·(1-e)`, the lead
particle sits at arclength `pathLength·e`, and the trailing particle with
(1-based) trail index `j` sits at `pathLength·max(0, e - j·0.03)`. -/
theorem animateFrame_drawing_outputs (pathLength elapsed duration t e : ℚ)
    (j : ℕ)
    (ht : t = min (elapsed / duration) 1)
    (he : e = if t < 1/2 then 4 * t ^ 3 else 1 - (-2 * t + 2) ^ 3 / 2)
    (hj1 : 1 ≤ j) (hj5 : j ≤ trailCount) :
    (animateFrame pathLength elapsed duration).dashOffset =
      pathLength * (1 - e) ∧
    (animateFrame pathLength elapsed duration).leadPos = pathLength * e ∧
    (animateFrame pathLength elapsed duration).trailPos[j - 1]? =
      some (pathLength * max 0 (e - (j : ℚ) * (3/100))) := by
  subst ht
  have hE :
      (if min (elapsed / duration) 1 < 1/2
        then 4 * min (elapsed / duration) 1 * min (elapsed / duration) 1 *
          min (elapsed / duration) 1
        else 1 - (-2 * min (elapsed / duration) 1 + 2) ^ 3 / 2) = e := by
    rw [he]
    split_ifs with h
    · ring
    · rfl
  have hjlt : j - 1 < trailCount := by omega
  have hcast : ((j - 1 : ℕ) : ℚ) = (j : ℚ) - 1 := by
    push_cast [hj1]
    ring
  refine ⟨?_, ?_, ?_⟩
  · simp only [animateFrame]
    rw [hE]
  · simp only [animateFrame]
    rw [hE]
  · simp only [animateFrame]
    rw [List.getElem?_map, List.getElem?_range hjlt, Option.map_some']
    rw [hE, hcast, show ((j : ℚ) - 1 + 1) = (j : ℚ) from by ring]

/-- Witness for C6 at pathLength 2, elapsed 1, duration 4 (so `t = 1/4`,
`e = 1/16`) and trail index 2. -/
theorem animateFrame_drawing_outputs_witness :
    ((1/4 : ℚ) = min ((1 : ℚ) / 4) 1) ∧
    ((1/16 : ℚ) =
      if (1/4 : ℚ) < 1/2 then 4 * (1/4 : ℚ) ^ 3
      else 1 - (-2 * (1/4 : ℚ) + 2) ^ 3 / 2) ∧
    1 ≤ 2 ∧ 2 ≤ trailCount ∧
    ((animateFrame 2 1 4).dashOffset = 2 * (1 - (1/16 : ℚ)) ∧
      (animateFrame 2 1 4).leadPos = 2 * (1/16 : ℚ) ∧
      (animateFrame 2 1 4).trailPos[2 - 1]? =
        some (2 * max 0 ((1/16 : ℚ) - (2 : ℚ) * (3/100)))) :=
  ⟨by norm_num [min_def], by norm_num, by norm_num,
   by norm_num [trailCount],
   animateFrame_drawing_outputs 2 1 4 (1/4) (1/16) 2
     (by norm_num [min_def]) (by norm_num) (by norm_num)
     (by norm_num [trailCount])⟩

/-- Claim C7: an attack event whose origin or destination country code is
missing from the coordinate table spawns no animation: the tick is a
silent no-op apart from consuming the slot. -/
theorem animateAttack_unmapped_noop (attacks : List Attack) (idx : ℕ)
    (a : Attack)
    (ha : attacks[idx % attacks.length]? = some a)
    (hmiss : lookupCoord a.fromCode = none ∨ lookupCoord a.toCode = none) :
    (animateAttackStep attacks idx).2 = none := by
  unfold animateAttackStep
  split
  · rfl
  · rename_i attack heq
    have haa : attack = a := Option.some.inj (heq.symm.trans ha)
    subst haa
    show (match lookupCoord attack.fromCode, lookupCoord attack.toCode with
      | some fc, some tc =>
          some (⟨fc, tc, getAttackColor attack.type⟩ : AttackAnim)
      | _, _ => none) = none
    split
    · rename_i fc tc hf ht2
      rcases hmiss with h | h <;> simp_all
    · rfl

/-- Witness for C7: a single attack from the unmapped code XX. -/
theorem animateAttack_unmapped_noop_witness :
    ([⟨"XX", "US", "DDoS"⟩] : List Attack)[0 %
        ([⟨"XX", "US", "DDoS"⟩] : List Attack).length]? =
      some ⟨"XX", "US", "DDoS"⟩ ∧
    (lookupCoord "XX" = none ∨ lookupCoord "US" = none) ∧
    (animateAttackStep [⟨"XX", "US", "DDoS"⟩] 0).2 = none :=
  ⟨rfl, Or.inl rfl,
   animateAttack_unmapped_noop _ 0 ⟨"XX", "US", "DDoS"⟩ rfl (Or.inl rfl)⟩

/-- Claim C10: on every tick with a non-empty event list the cyclic index
advances by exactly one, whether or not the country
codes of the selected event resolve, so a dropped event still consumes its slot. -/
theorem animateAttack_consumes_slot (attacks : List Attack) (idx : ℕ)
    (h : attacks ≠ []) :
    (animateAttackStep attacks idx).1 = idx + 1 := by
  have hlen : 0 < attacks.length := List.length_pos.mpr h
  have hlt : idx % attacks.length < attacks.length := Nat.mod_lt _ hlen
  unfold animateAttackStep
  split
  · rename_i heq
    rw [List.getElem?_eq_none_iff] at heq
    omega
  · rfl

/-- Witness for C10: one unresolvable attack event, index 7 advances to 8. -/
theorem animateAttack_consumes_slot_witness :
    ([⟨"XX", "YY", "Phishing"⟩] : List Attack) ≠ [] ∧
    (animateAttackStep [⟨"XX", "YY", "Phishing"⟩] 7).1 = 7 + 1 :=
  ⟨by simp, animateAttack_consumes_slot _ 7 (by simp)⟩

/-- Witness for C2 (amended) at chaosIndex 42.7 over a nonempty factor list. -/
theorem updateScore_prefers_nonzero_index_witness :
    ((427/10 : ℚ) ≠ 0) ∧
    (updateScore (some (427/10))
        [ { weight := some 20, value := some 80, max := 100, reverse := false } ] = 427/10 ∧
      updateScore (some (427/10))
        [ { weight := some 20, value := some 80, max := 100, reverse := false } ] = 427/10) :=
  ⟨by norm_num,
   updateScore_prefers_nonzero_index _ (427/10) (by norm_num)⟩

/-- JS object read `m[k]`: first entry with the key, if any. -/
def lookupKey {α : Type} (m : List (String × α)) (k : String) : Option α :=
  (m.find? (fun e => e.1 == k)).map Prod.snd

/-- JS object write `m[k] = v`: overwrite the entry if the key exists,
append it otherwise. -/
def setKey {α : Type} (m : List (String × α)) (k : String) (v : α) :
    List (String × α) :=
  if m.any (fun e => e.1 == k) then
    m.map (fun e => if e.1 == k then (e.1, v) else e)
  else m ++ [(k, v)]

/-- Save loop of `openSimulationModal`:
`simulationValues[k] = chaosFactors[k].value` for every factor key. -/
def openSimulationModal (fs : List (String × Factor)) :
    List (String × Option ℚ) :=
  fs.map (fun kf => (kf.1, kf.2.value))

/-- The slider `input` handler: `simulationValues[key] = value`. -/
def sliderInput (ov : List (String × Option ℚ)) (k : String) (v : ℚ) :
    List (String × Option ℚ) :=
  setKey ov k (some v)

/-- The loop `chaosFactors[k].value = simulationValues[k]` over all factor
keys, shared by `exitSimulation` and `updateSimulationScore`. -/
def assignValues (fs : List (String × Factor))
    (ov : List (String × Option ℚ)) : List (String × Factor) :=
  fs.map (fun kf =>
    (kf.1, { kf.2 with value := (lookupKey ov kf.1).getD none }))

/-- Effect of `exitSimulation` on the factor mapping: it writes
`simulationValues[k]` into every `chaosFactors[k].value`. -/
def exitSimulation (fs : List (String × Factor))
    (ov : List (String × Option ℚ)) : List (String × Factor) :=
  assignValues fs ov

/-- Model of `updateSimulationScore`: save the original values, write the overlay
values into the factors, compute the displayed score via `updateScore`,
then write the saved originals back.  Returns the displayed score and the
final factor mapping. -/
def updateSimulationScore (chaosIndex : Option ℚ)
    (fs : List (String × Factor)) (ov : List (String × Option ℚ)) :
    ℚ × List (String × Factor) :=
  let original := fs.map (fun kf => (kf.1, kf.2.value))
  let mutated := assignValues fs ov
  let score := updateScore chaosIndex (mutated.map Prod.snd)
  (score, assignValues mutated original)

/-- The example factor of the simulated sessions: value 80 of max 100. -/
def factorA80 : Factor :=
  { weight := some 20, value := some 80, max := 100, reverse := false }

/-- Claim C3 evaluated at the failing input (the code contradicts the
claim): start a session on factor `a` with value 80, move the slider to 0,
then discard via `exitSimulation` — the persisted value becomes 0, not the
80 it held when the session began. -/
theorem exitSimulation_applies_slider_values :
    exitSimulation [("a", factorA80)]
        (sliderInput (openSimulationModal [("a", factorA80)]) "a" 0) =
      [("a", { factorA80 with value := some 0 })] ∧
    ({ factorA80 with value := some (0 : ℚ) }) ≠ factorA80 := by
  constructor
  · rfl
  · simp [factorA80]

theorem lookupKey_map_value (fs : List (String × Factor))
    (hnd : (fs.map Prod.fst).Nodup) (k : String) (f : Factor)
    (hmem : (k, f) ∈ fs) :
    lookupKey (fs.map (fun kf => (kf.1, kf.2.value))) k = some f.value := by
  induction fs with
  | nil => simp at hmem
  | cons kf rest ih =>
    simp only [List.map_cons, List.nodup_cons] at hnd
    rcases List.mem_cons.mp hmem with h | h
    · subst h
      simp [lookupKey]
    · have hk : k ∈ rest.map Prod.fst := List.mem_map_of_mem Prod.fst h
      have hne : (kf.1 == k) = false := by
        rw [beq_eq_false_iff_ne]
        intro e
        exact hnd.1 (e ▸ hk)
      simp only [List.map_cons, lookupKey, List.find?_cons, hne]
      exact ih hnd.2 h

/-- Claim C8 (amended): when the snapshot supplies no (truthy) aggregate,
`updateSimulationScore` reports the aggregate of the overlay-substituted
factors; in every case the persisted factor values are unchanged after the
computation. -/
theorem updateSimulationScore_overlay_and_restore (ci : Option ℚ)
    (fs : List (String × Factor)) (ov : List (String × Option ℚ))
    (hnd : (fs.map Prod.fst).Nodup) :
    ((ci = none ∨ ci = some 0) →
      (updateSimulationScore ci fs ov).1 =
        localScore ((assignValues fs ov).map Prod.snd)) ∧
    (updateSimulationScore ci fs ov).2 = fs := by
  constructor
  · rintro (rfl | rfl)
    · rfl
    · show updateScore (some 0) _ = _
      simp [updateScore]
  · show assignValues (assignValues fs ov)
        (fs.map fun kf => (kf.1, kf.2.value)) = fs
    unfold assignValues
    rw [List.map_map]
    conv_rhs => rw [← List.map_id fs]
    apply List.map_congr_left
    intro kf hkf
    obtain ⟨k, f⟩ := kf
    simp only [Function.comp, id]
    rw [lookupKey_map_value fs hnd k f hkf]
    rfl

/-- Witness for C8 (amended): one factor, overlay 0, no live index. -/
theorem updateSimulationScore_overlay_and_restore_witness :
    (([("a", factorA80)].map Prod.fst).Nodup) ∧
    ((((none : Option ℚ) = none ∨ (none : Option ℚ) = some 0) →
      (updateSimulationScore none [("a", factorA80)] [("a", some 0)]).1 =
        localScore
          ((assignValues [("a", factorA80)] [("a", some 0)]).map Prod.snd)) ∧
    (updateSimulationScore none [("a", factorA80)] [("a", some 0)]).2 =
      [("a", factorA80)]) :=
  ⟨by simp,
   updateSimulationScore_overlay_and_restore none _ _ (by simp)⟩

/-- Counterexample to C8 as stated: with a live aggregate 50 present, the
overlay that zeroes factor `a` still reports 50, not the overlay-derived
aggregate 0. -/
theorem updateSimulationScore_live_index_overrides :
    (updateSimulationScore (some 50) [("a", factorA80)] [("a", some 0)]).1 =
      50 ∧
    localScore
      ((assignValues [("a", factorA80)] [("a", some 0)]).map Prod.snd) = 0 ∧
    (50 : ℚ) ≠ 0 := by
  refine ⟨?_, ?_, by norm_num⟩
  · simp [updateSimulationScore, updateScore]
  · norm_num [assignValues, lookupKey, localScore, scoreFold, normalized,
      effWeight, factorA80]

/-- The weighted term `wv = n · (weight || 1)` of a factor, 0 when its
value is undefined (such a factor is skipped by the accumulation). -/
def weightedVal (f : Factor) : ℚ :=
  match f.value with
  | none => 0
  | some v => normalized f v * effWeight f

/-- The accumulation loop of `showInfoCard`: running pair
`(totalWeightedSum, myWeightedVal)` for the hovered factor `f0`. -/
def infoFold (fs : List Factor) (f0 : Factor) : ℚ × ℚ :=
  fs.foldl
    (fun acc f =>
      match f.value with
      | none => acc
      | some v =>
        (acc.1 + normalized f v * effWeight f,
          if f = f0 then normalized f v * effWeight f else acc.2))
    (0, 0)

/-- Computation of `impactPercent` in `showInfoCard`:
`totalWeightedSum > 0 ? (myWeightedVal / totalWeightedSum) * 100 : 0`. -/
def showInfoCardImpact (fs : List Factor) (f0 : Factor) : ℚ :=
  let acc := infoFold fs f0
  if 0 < acc.1 then acc.2 / acc.1 * 100 else 0

theorem infoFold_eq (f0 : Factor) (fs : List Factor) :
    ∀ a m : ℚ,
      fs.foldl
        (fun acc f =>
          match f.value with
          | none => acc
          | some v =>
            (acc.1 + normalized f v * effWeight f,
              if f = f0 then normalized f v * effWeight f else acc.2))
        (a, m) =
      (a + sumNW fs,
        if fs.any (fun f => f == f0 && f.value.isSome)
          then weightedVal f0 else m) := by
  induction fs with
  | nil => intro a m; simp [sumNW]
  | cons f rest ih =>
    intro a m
    cases hv : f.value with
    | none =>
      simp only [List.foldl_cons, hv]
      rw [ih]
      simp [sumNW, List.filterMap_cons, hv]
    | some v =>
      simp only [List.foldl_cons, hv]
      rw [ih]
      simp only [Prod.mk.injEq]
      refine ⟨?_, ?_⟩
      · simp [sumNW, List.filterMap_cons, hv]
        ring
      · simp only [List.any_cons, hv, Option.isSome_some, Bool.and_true,
          beq_iff_eq, Bool.or_eq_true, decide_eq_true_eq]
        by_cases hr : (rest.any fun g => g == f0 && g.value.isSome) = true
        · simp [hr]
        · by_cases hf0 : f = f0
          · subst hf0
            simp [hr, weightedVal, hv]
          · simp [hr, hf0]

theorem infoFold_spec (fs : List Factor) (f0 : Factor) :
    infoFold fs f0 =
      (sumNW fs,
        if fs.any (fun f => f == f0 && f.value.isSome)
          then weightedVal f0 else 0) := by
  have h := infoFold_eq f0 fs 0 0
  simpa [infoFold] using h

theorem sum_weightedVal_filter (fs : List Factor) :
    ((fs.filter (fun f => f.value.isSome)).map weightedVal).sum = sumNW fs := by
  induction fs with
  | nil => rfl
  | cons f rest ih =>
    cases hv : f.value with
    | none =>
      have hs : sumNW (f :: rest) = sumNW rest := by
        simp [sumNW, List.filterMap_cons, hv]
      simp [List.filter_cons, hv, hs, ih]
    | some v =>
      have hs : sumNW (f :: rest) =
          normalized f v * effWeight f + sumNW rest := by
        simp [sumNW, List.filterMap_cons, hv]
      simp [List.filter_cons, hv, weightedVal, hs, ih]

theorem showInfoCardImpact_eligible (fs : List Factor) (f : Factor)
    (hmem : f ∈ fs) (hsome : f.value.isSome) (hpos : 0 < sumNW fs) :
    showInfoCardImpact fs f = weightedVal f * (100 / sumNW fs) := by
  have hany : fs.any (fun g => g == f && g.value.isSome) = true := by
    rw [List.any_eq_true]
    exact ⟨f, hmem, by simp [hsome]⟩
  have hfold : infoFold fs f = (sumNW fs, weightedVal f) := by
    rw [infoFold_spec, hany]
    simp
  unfold showInfoCardImpact
  rw [hfold]
  simp only [if_pos hpos]
  rw [div_mul_eq_mul_div, mul_div_assoc]

/-- Claim C9: whenever the total weighted sum over the factors with a
defined value is positive, the per-factor impact percentages shown by the
info card sum to exactly 100 over those factors. -/
theorem showInfoCard_contributions_sum (fs : List Factor)
    (hpos : 0 < sumNW fs) :
    ((fs.filter (fun f => f.value.isSome)).map
      (fun f => showInfoCardImpact fs f)).sum = 100 := by
  have hcong : (fs.filter (fun f => f.value.isSome)).map
        (fun f => showInfoCardImpact fs f) =
      (fs.filter (fun f => f.value.isSome)).map
        (fun f => weightedVal f * (100 / sumNW fs)) := by
    apply List.map_congr_left
    intro f hf
    have hm := List.mem_filter.mp hf
    exact showInfoCardImpact_eligible fs f hm.1 (by simpa using hm.2) hpos
  rw [hcong, List.sum_map_mul_right, sum_weightedVal_filter, mul_comm]
  exact div_mul_cancel₀ 100 (ne_of_gt hpos)

/-- Witness for C9 on the single factor with value 80 of max 100. -/
theorem showInfoCard_contributions_sum_witness :
    0 < sumNW [factorA80] ∧
    (([factorA80].filter (fun f => f.value.isSome)).map
      (fun f => showInfoCardImpact [factorA80] f)).sum = 100 :=
  ⟨by norm_num [sumNW, List.filterMap_cons, normalized, effWeight, factorA80],
   showInfoCard_contributions_sum _
     (by norm_num [sumNW, List.filterMap_cons, normalized, effWeight,
       factorA80])⟩

end ChaosMeter
